import Mathlib

/-!
Verification of the aggregation and normalization pipeline of the tennis
scoreboard repository.  The JavaScript sources are shallowly embedded as
total Lean functions over a JSON value type:

- src/api/odds/[league]/[eventId].js   (odds proxy handler)
- src/api/leagues.js                   (league directory handler)
- src/api/scoreboard/[slug].js and the client normalization in
  src/unnamed/part_001                 (scoreboard normalization)
- src/unnamed/part_001                 (per competition odds fallback chain,
                                        league isolation in fetchLeaguesAndScores)
- src/unnamed/part_002                 (tournaments builder: flattening and grouping)
- src/src/App.jsx                      (time window filter, odds to percentage)

Modelling conventions, stated once here and referenced below:
- JSON numbers are modelled as integers; every numeric payload consumed by the
  code in scope (American odds, HTTP statuses, lengths) is an integer, and a
  JSON number is always finite, so finiteness is captured by construction.
- A missing JavaScript property (undefined) is modelled as Option.none at
  access sites; where the code collapses undefined and null with operators
  such as optional chaining and the nullish default, the model does the same.
- Network calls are modelled by explicit outcome values passed as arguments:
  a failed fetch or a body whose JSON parse throws is an error outcome, and a
  successful one carries the parsed Json.  Totality of each Lean handler
  models the fact that the JavaScript handler catches every exception.
-/

/-- JSON value as consumed by the pipeline.  Object fields keep their textual
order; numbers are integers per the modelling conventions above. -/
inductive Json where
  | null
  | bool (b : Bool)
  | num (n : ℤ)
  | str (s : String)
  | arr (xs : List Json)
  | obj (fields : List (String × Json))

/-- First binding of a key in an object field list, as JavaScript property
lookup on a parsed JSON object (parsed objects hold distinct keys). -/
def lookupField : List (String × Json) → String → Option Json
  | [], _ => none
  | (k, v) :: rest, key => if k = key then some v else lookupField rest key

/-- Property access j.key returning undefined (none) when j is not an object
or lacks the key; the sources only read these properties behind optional
chaining or after guards, so the undefined outcome never throws. -/
def jget? : Json → String → Option Json
  | Json.obj fs, key => lookupField fs key
  | _, _ => none

/-- JavaScript truthiness of a JSON value. -/
def truthy : Json → Bool
  | Json.null => false
  | Json.bool b => b
  | Json.num n => n ≠ 0
  | Json.str s => s ≠ ""
  | Json.arr _ => true
  | Json.obj _ => true

/-- Collapse undefined to null.  Used only where the source treats the two
alike (truthiness tests and nullish defaults). -/
def jv (o : Option Json) : Json := o.getD Json.null

/-- The JavaScript or-else operator a || b on JSON values. -/
def jsOr (a b : Json) : Json := if truthy a then a else b

/-- Strict inequality test x !== null on a possibly undefined property:
undefined !== null is true in JavaScript. -/
def strictNeNull : Option Json → Bool
  | some Json.null => false
  | _ => true

/-- An HTTP response sent by one of the API handlers: status code plus the
serialized JSON body. -/
structure HttpResponse where
  status : ℤ
  body : Json

/-- Outcome of one fetch call as observed by a handler: the fetch itself may
throw (netError), or deliver a status code together with a body whose JSON
parse either throws or yields a value. -/
inductive FetchOutcome where
  | netError
  | got (status : ℤ) (body : Except Unit Json)

/-- Embeds o.homeTeamOdds?.current?.moneyLine?.american ?? null from
src/api/odds/[league]/[eventId].js lines 31 to 34 (side selects the
homeTeamOdds or awayTeamOdds branch). -/
def extractAmerican (o : Json) (side : String) : Json :=
  jv ((((jget? o side).bind (fun x => jget? x "current")).bind
      (fun x => jget? x "moneyLine")).bind (fun x => jget? x "american"))

/-- Embeds the odds proxy handler of src/api/odds/[league]/[eventId].js:
non ok upstream status, a missing or short items list, and any thrown
exception all answer 200 with body null; otherwise the market entry at
index 2 is projected to a home and away pair.  A null entry at index 2
throws on property access in the source and is caught, hence the null
response in that branch.  A string items value reaches the length check
and the index in the source, yielding a pair of nulls; container shapes
other than arrays and strings throw or read undefined and collapse to the
null response. -/
def oddsHandler (outcome : FetchOutcome) : HttpResponse :=
  match outcome with
  | FetchOutcome.netError => ⟨200, Json.null⟩
  | FetchOutcome.got status body =>
    if status < 200 ∨ 300 ≤ status then ⟨200, Json.null⟩
    else
      match body with
      | Except.error _ => ⟨200, Json.null⟩
      | Except.ok data =>
        match jget? data "items" with
        | some (Json.arr items) =>
          if items.length < 3 then ⟨200, Json.null⟩
          else
            match items.get? 2 with
            | some Json.null => ⟨200, Json.null⟩
            | some o => ⟨200, Json.obj [("home", extractAmerican o "homeTeamOdds"),
                                        ("away", extractAmerican o "awayTeamOdds")]⟩
            | none => ⟨200, Json.null⟩
        | some (Json.str s) =>
          if s.length < 3 then ⟨200, Json.null⟩
          else ⟨200, Json.obj [("home", Json.null), ("away", Json.null)]⟩
        | _ => ⟨200, Json.null⟩

/-- A value that is a finite number or null, the shape the odds claims allow
for each side of a resolved pair. -/
def numOrNull : Json → Bool
  | Json.null => true
  | Json.num _ => true
  | _ => false

/-- A well formed market entry: an object whose American odds fields, where
present, hold a number or null.  This is the schema of the upstream odds
endpoint described by the specification. -/
def validOddsItem (o : Json) : Bool :=
  (match o with | Json.null => false | _ => true) &&
  numOrNull (extractAmerican o "homeTeamOdds") &&
  numOrNull (extractAmerican o "awayTeamOdds")

/-- Every market entry of the list is well formed. -/
def validOddsItems (items : List Json) : Bool :=
  items.all validOddsItem

/-- Embeds the league descriptor construction of src/api/leagues.js lines 17
to 22: the four fields are copied from the resolved payload; a field the
payload lacks is undefined in the JavaScript object and dropped by JSON
serialization, while an explicit null is kept. -/
def mkLeagueDescriptor (l : Json) : Json :=
  Json.obj (["id", "name", "abbreviation", "slug"].filterMap
    (fun k => (jget? l k).map (fun v => (k, v))))

/-- Embeds the handler of src/api/leagues.js.  The directory fetch outcome is
the first argument; resolve gives the per reference fetch outcome used inside
the inner try of lines 13 to 25 (any throw there yields null, filtered out
afterwards).  The slice call of line 8 throws on container values other than
arrays, strings and null, and mapping over a non empty string throws; both
land in the outer catch which answers status 500 with an empty list. -/
def leaguesHandler (dir : Except Unit Json) (resolve : Json → Except Unit Json) :
    HttpResponse :=
  match dir with
  | Except.error _ => ⟨500, Json.arr []⟩
  | Except.ok listData =>
    match jget? listData "items" with
    | some (Json.arr xs) =>
      ⟨200, Json.arr ((xs.take 25).filterMap (fun item =>
        match resolve item with
        | Except.ok l => some (mkLeagueDescriptor l)
        | Except.error _ => none))⟩
    | some Json.null => ⟨200, Json.arr []⟩
    | none => ⟨200, Json.arr []⟩
    | some (Json.str s) => if s = "" then ⟨200, Json.arr []⟩ else ⟨500, Json.arr []⟩
    | some _ => ⟨500, Json.arr []⟩

/-- Embeds the client scoreboard normalization of src/unnamed/part_001 lines
58 to 62: an array payload is the event list; otherwise the events field is
read with a falsy default, and a final array check collapses every non array
value to the empty list.  A failed fetch or parse is the error outcome,
normalized to the empty list by the catch of lines 63 to 65. -/
def normalizeScoreboard (r : Except Unit Json) : List Json :=
  match r with
  | Except.error _ => []
  | Except.ok data =>
    let events : Json :=
      match data with
      | Json.arr xs => Json.arr xs
      | _ =>
        match jget? data "events" with
        | some v => if truthy v then v else Json.arr []
        | none => Json.arr []
    match events with
    | Json.arr xs => xs
    | _ => []

/-- Restates the normalization rule in the words of the specification: an
array payload is used directly, otherwise the events field when it is an
array, and every other shape including null or an error gives the empty
list.  Compared against normalizeScoreboard for the refinement claim. -/
def specNormalizeScoreboard (r : Except Unit Json) : List Json :=
  match r with
  | Except.error _ => []
  | Except.ok (Json.arr xs) => xs
  | Except.ok data =>
    match jget? data "events" with
    | some (Json.arr xs) => xs
    | _ => []

/-- Embeds competition?.odds?.[0]?.moneyline from src/unnamed/part_001 lines
102 and 118.  The optional index on an array takes the head, on an object the
key "0", on a non empty string its first character; on the remaining
primitives it is undefined. -/
def mlOf (c : Json) : Json :=
  jv (((jget? c "odds").bind (fun os =>
      match os with
      | Json.arr xs => xs.get? 0
      | Json.obj fs => lookupField fs "0"
      | Json.str s => if s = "" then none else some (Json.str (s.take 1))
      | _ => none)).bind (fun o => jget? o "moneyline"))

/-- Embeds moneyline.side?.open?.odds ?? null from src/unnamed/part_001
lines 104 to 106. -/
def openOdds (ml : Json) (side : String) : Json :=
  jv (((jget? ml side).bind (fun x => jget? x "open")).bind (fun x => jget? x "odds"))

/-- The fallback branch of the per competition odds resolution: when the
moneyline shape is truthy it yields the pair of opening prices, otherwise the
competition resolves to nothing (the entry is dropped by filter Boolean). -/
def fallbackMoneyline (c : Json) : Option Json :=
  let ml := mlOf c
  if truthy ml then
    some (Json.obj [("home", openOdds ml "home"), ("away", openOdds ml "away")])
  else none

/-- The guard of src/unnamed/part_001 line 98: the endpoint answer is used
when it is truthy and at least one side differs strictly from null (an absent
side also differs strictly from null in JavaScript). -/
def endpointUsable : Except Unit Json → Bool
  | Except.error _ => false
  | Except.ok data =>
    truthy data &&
      (strictNeNull (jget? data "home") || strictNeNull (jget? data "away"))

/-- Embeds the per competition odds resolution of src/unnamed/part_001 lines
91 to 127: the dedicated endpoint answer is used when usable; otherwise, and
also when the call throws, the moneyline embedded in the competition payload
is consulted; when neither yields a value the competition resolves to
nothing. -/
def oddsEntryFor (endpoint : Except Unit Json) (c : Json) : Option Json :=
  match endpoint with
  | Except.ok data =>
    if truthy data &&
        (strictNeNull (jget? data "home") || strictNeNull (jget? data "away"))
    then some data
    else fallbackMoneyline c
  | Except.error _ => fallbackMoneyline c

/-- A body the dedicated odds endpoint can produce, per its handler above:
null, or a pair object with exactly the home and away fields. -/
def wellFormedEndpointBody (j : Json) : Prop :=
  j = Json.null ∨ ∃ h a, j = Json.obj [("home", h), ("away", a)]

/-- Template literal conversion of a JSON value to text.  The name fields
that feed grouping keys are primitive in every payload shape in scope; the
composite cases are fixed renderings (JavaScript joins array elements and
prints plain objects as a constant tag), kept flat here because no claim
stringifies a container. -/
def jsToString : Json → String
  | Json.null => "null"
  | Json.bool b => if b then "true" else "false"
  | Json.num n => toString n
  | Json.str s => s
  | Json.arr _ => ""
  | Json.obj _ => "[object Object]"

/-- Deterministic stand in for the locale date rendering of src/unnamed/
part_002 lines 103 to 109: a pure function of the date value, falsy dates
rendering as the empty string exactly as in the source. -/
def formatDateModel (d : Json) : String :=
  if truthy d then "date " ++ jsToString d else ""

/-- Embeds lines 177 to 181 of src/unnamed/part_002: the groupings value is
used as a list when it is an array, wrapped in a singleton when truthy, and
empty otherwise. -/
def groupingsArrayOf (event : Json) : List Json :=
  match jget? event "groupings" with
  | some (Json.arr xs) => xs
  | some g => if truthy g then [g] else []
  | none => []

/-- Embeds lines 205 to 209 of src/unnamed/part_002: the competitions of one
grouping, array or truthy singleton or empty. -/
def compsOfGrouping (g : Json) : List Json :=
  match jget? g "competitions" with
  | some (Json.arr xs) => xs
  | some c => if truthy c then [c] else []
  | none => []

/-- Embeds lines 216 to 218 and 255 to 257 of src/unnamed/part_002: the top
level competitions of the event, only when an array. -/
def eventCompsOf (event : Json) : List Json :=
  match jget? event "competitions" with
  | some (Json.arr xs) => xs
  | _ => []

/-- Embeds the synthesized competition of lines 223 to 235 of src/unnamed/
part_002 (groupings branch): id and competitors from the event, odds from
the grouping else the event, broadcast from the grouping else the event. -/
def synthComp (event g : Json) : Json :=
  Json.obj [("id", jv (jget? event "id")),
    ("competitors", jsOr (jv (jget? event "competitors")) (Json.arr [])),
    ("odds", jsOr (jv (jget? g "odds")) (jsOr (jv (jget? event "odds")) (Json.arr []))),
    ("broadcast", jsOr (jv (jget? g "broadcast")) (jsOr (jv (jget? g "broadcasts"))
      (jsOr (jv (jget? event "broadcast")) (jv (jget? event "broadcasts")))))]

/-- Embeds the synthesized competition of lines 262 to 269 of src/unnamed/
part_002 (branch without groupings). -/
def synthCompNoGroup (event : Json) : Json :=
  Json.obj [("id", jv (jget? event "id")),
    ("competitors", jsOr (jv (jget? event "competitors")) (Json.arr [])),
    ("odds", jsOr (jv (jget? event "odds")) (Json.arr [])),
    ("broadcast", jsOr (jv (jget? event "broadcast")) (jv (jget? event "broadcasts")))]

/-- The event and competition pairs contributed by one grouping of an event,
embedding lines 211 to 237 of src/unnamed/part_002: the competitions of the
grouping when any, else the top level competitions of the event when any,
else exactly one synthesized competition. -/
def itemsForGrouping (event g : Json) : List (Json × Json) :=
  let comps := compsOfGrouping g
  if comps.isEmpty then
    let ec := eventCompsOf event
    if ec.isEmpty then [(event, synthComp event g)]
    else ec.map (fun c => (event, c))
  else comps.map (fun c => (event, c))

/-- The pairs contributed by an event without groupings, embedding lines 255
to 271 of src/unnamed/part_002. -/
def itemsForNoGrouping (event : Json) : List (Json × Json) :=
  let ec := eventCompsOf event
  if ec.isEmpty then [(event, synthCompNoGroup event)] else ec.map (fun c => (event, c))

/-- Embeds the tournament name chain of lines 165 to 170 of src/unnamed/
part_002. -/
def tournamentNameOf (event : Json) : Json :=
  jsOr (jv ((jget? event "tournament").bind (fun t => jget? t "name")))
    (jsOr (jv ((jget? event "league").bind (fun t => jget? t "name")))
      (jsOr (jv (jget? event "shortName"))
        (jsOr (jv (jget? event "name"))
          (if truthy (jv (jget? event "date"))
           then Json.str (formatDateModel (jv (jget? event "date")))
           else Json.str "Tournament"))))

/-- Embeds the grouping display name chain of lines 185 to 192 of
src/unnamed/part_002. -/
def displayNameOf (event g : Json) : Json :=
  jsOr (jv ((jget? g "grouping").bind (fun x => jget? x "displayName")))
    (jsOr (jv ((jget? g "grouping").bind (fun x => jget? x "shortName")))
      (jsOr (jv (jget? g "displayName"))
        (jsOr (jv (jget? g "shortName"))
          (jsOr (jv (jget? event "shortName"))
            (jsOr (jv (jget? event "name")) (Json.str "Matches"))))))

/-- Embeds the display name of lines 240 to 243 of src/unnamed/part_002 for
an event without groupings. -/
def noGroupDisplayNameOf (event : Json) : Json :=
  jsOr (jv (jget? event "shortName"))
    (jsOr (jv (jget? event "name"))
      (if truthy (jv (jget? event "date"))
       then Json.str (formatDateModel (jv (jget? event "date")))
       else Json.str "Matches"))

/-- Key equality of the outer tournaments Map: JavaScript Map keys compare
with same-value-zero semantics, which on primitives is value equality and on
container values is reference identity; two separately produced container
values are distinct references, modelled as never equal. -/
def jsKeyEq : Json → Json → Bool
  | Json.null, Json.null => true
  | Json.bool a, Json.bool b => a == b
  | Json.num a, Json.num b => a == b
  | Json.str a, Json.str b => a == b
  | _, _ => false

/-- One grouping node of the built hierarchy: derived key, display name and
the item list in flattening order, as assembled by src/unnamed/part_002. -/
structure GroupingEntry where
  key : String
  displayName : Json
  items : List (Json × Json)

/-- Insertion ordered map from grouping key to grouping node, as the inner
JavaScript Map of src/unnamed/part_002 line 173. -/
abbrev GroupMap := List (String × GroupingEntry)

/-- Insertion ordered map from tournament name to its grouping map, as the
outer JavaScript Map of src/unnamed/part_002 line 162. -/
abbrev TourMap := List (Json × GroupMap)

/-- Embeds the get-or-create and push steps on the inner Map (lines 196 to
203 and following): an existing node keeps its position, key and display
name and receives the new items at the end; a missing key is appended. -/
def upsertGrouping (gm : GroupMap) (key : String) (dn : Json)
    (newItems : List (Json × Json)) : GroupMap :=
  match gm with
  | [] => [(key, ⟨key, dn, newItems⟩)]
  | (k, e) :: rest =>
    if k = key then (k, ⟨e.key, e.displayName, e.items ++ newItems⟩) :: rest
    else (k, e) :: upsertGrouping rest key dn newItems

/-- Embeds the get-or-create step on the outer Map (lines 172 to 175): the
grouping map of an existing tournament is updated in place, a missing
tournament is appended with an updated empty map. -/
def upsertTour (tm : TourMap) (tn : Json) (f : GroupMap → GroupMap) : TourMap :=
  match tm with
  | [] => [(tn, f [])]
  | (n, gm) :: rest =>
    if jsKeyEq n tn then (n, f gm) :: rest else (n, gm) :: upsertTour rest tn f

/-- Processing of one grouping of one event under tournament name tn,
embedding lines 184 to 237 of src/unnamed/part_002. -/
def processGrouping (tn : Json) (event : Json) (gm : GroupMap) (g : Json) : GroupMap :=
  let dn := displayNameOf event g
  let key := jsToString tn ++ "||" ++ jsToString dn
  upsertGrouping gm key dn (itemsForGrouping event g)

/-- Processing of an event without groupings under tournament name tn,
embedding lines 239 to 272 of src/unnamed/part_002. -/
def processNoGrouping (tn : Json) (event : Json) (gm : GroupMap) : GroupMap :=
  let dn := noGroupDisplayNameOf event
  let key := jsToString tn ++ "||" ++ jsToString dn
  upsertGrouping gm key dn (itemsForNoGrouping event)

/-- Processing of one event of the loop at line 164 of src/unnamed/part_002:
events carrying groupings are flattened through the groupings alone, the
others through the branch without groupings. -/
def processEvent (tm : TourMap) (event : Json) : TourMap :=
  let tn := tournamentNameOf event
  let gs := groupingsArrayOf event
  upsertTour tm tn (fun gm =>
    if gs.isEmpty then processNoGrouping tn event gm
    else gs.foldl (processGrouping tn event) gm)

/-- One top level entry of the built hierarchy. -/
structure TournamentEntry where
  tournamentName : Json
  groupings : List GroupingEntry

/-- Embeds the tournaments builder of src/unnamed/part_002 lines 161 to 279:
a fold of the per event processing over the normalized event list, then the
Map contents in insertion order. -/
def tournaments (events : List Json) : List TournamentEntry :=
  (events.foldl processEvent []).map (fun p => ⟨p.1, p.2.map Prod.snd⟩)

/-- Milliseconds of one day; the source shifts a Date by whole days with
setDate, modelled as exact day lengths, the abstraction under which the
specification states the window. -/
def msPerDay : ℤ := 86400000

/-- Embeds isGameInTimeWindow of src/src/App.jsx lines 132 to 140.  The date
string is none when the field is absent; a present string that is empty is
falsy and rejected by the first guard; parseDate stands for the Date
constructor, returning none for an unparseable date, whose NaN timestamp
makes both comparisons false in the source. -/
def isGameInTimeWindow (parseDate : String → Option ℤ) (now : ℤ)
    (dateStr : Option String) : Bool :=
  match dateStr with
  | none => false
  | some s =>
    if s = "" then false
    else
      match parseDate s with
      | none => false
      | some d => decide (now - 4 * msPerDay ≤ d) && decide (d ≤ now + 8 * msPerDay)

/-- Numeric value of a decimal digit character. -/
def digitVal (c : Char) : Option ℤ :=
  if c.isDigit then some ((c.toNat : ℤ) - 48) else none

/-- Accumulating decimal reading of a digit list. -/
def digitsAux : List Char → ℤ → Option ℤ
  | [], acc => some acc
  | c :: cs, acc =>
    match digitVal c with
    | some d => digitsAux cs (10 * acc + d)
    | none => none

/-- Decimal reading of a non empty digit list. -/
def digitsToInt : List Char → Option ℤ
  | [] => none
  | cs => digitsAux cs 0

/-- The Number coercion of a string restricted to the integer literals the
odds payloads carry: empty string to zero, optional leading minus, digits;
anything else is NaN (none).  Fractional or exponent forms do not occur in
American odds. -/
def jsStrToNum (s : String) : Option ℤ :=
  match s.data with
  | [] => some 0
  | '-' :: rest => (digitsToInt rest).map (fun n => -n)
  | ds => digitsToInt ds

/-- The Number coercion reached on line 156 of src/src/App.jsx.  Only values
that survive the truthiness guard reach it; container values coerce through
toPrimitive in JavaScript and are collapsed to NaN here, a corner no claim
exercises. -/
def jsToNumber : Json → Option ℤ
  | Json.null => some 0
  | Json.bool b => some (if b then 1 else 0)
  | Json.num n => some n
  | Json.str s => jsStrToNum s
  | Json.arr _ => none
  | Json.obj _ => none

/-- Rounding of the exact ratio a / b to the nearest integer, halves away
from zero, for a nonnegative and b positive: the rounding of toFixed on the
values in scope. -/
def roundHalfUpDiv (a b : ℤ) : ℤ := (2 * a + b) / (2 * b)

/-- Embeds americanOddsToPercentage of src/src/App.jsx lines 154 to 161.
The result is the displayed percentage in tenths (the source renders
(p * 100).toFixed(1) followed by a percent sign): probability 100/(n+100)
for positive n, abs n/(abs n+100) otherwise, scaled by one thousand. -/
def americanOddsToPercentage (odds : Json) : Option ℤ :=
  if truthy odds = false then none
  else
    match jsToNumber odds with
    | none => none
    | some n =>
      if 0 < n then some (roundHalfUpDiv 100000 (n + 100))
      else some (roundHalfUpDiv (1000 * (n.natAbs : ℤ)) ((n.natAbs : ℤ) + 100))

/-- A league descriptor as consumed by fetchLeaguesAndScores of
src/unnamed/part_001: only the id (the scores key) and the slug (the fetch
key) act in the claims. -/
structure League where
  id : String
  slug : String
deriving DecidableEq

/-- Lookup in an entry list with the override rule of Object.fromEntries:
the last entry of a key wins, so an entry is consulted only when no later
entry has the key. -/
def entriesGet {α : Type} : List (String × α) → String → Option α
  | [], _ => none
  | p :: xs, k => (entriesGet xs k).or (if p.1 = k then some p.2 else none)

/-- Embeds the scoreboards step of src/unnamed/part_001 lines 55 to 68: one
entry per league, pairing its id with the normalized events of its own fetch
outcome (env gives the outcome per slug). -/
def scoresPairs (env : String → Except Unit Json) (L : List League) :
    List (String × List Json) :=
  L.map (fun l => (l.id, normalizeScoreboard (env l.slug)))

/-- The event list read back from the scores object for a league id, with
the empty default of line 74. -/
def scoresGet (env : String → Except Unit Json) (L : List League) (lid : String) :
    List Json :=
  (entriesGet (scoresPairs env L) lid).getD []

/-- The for...of iteration over a value: arrays yield their elements,
strings yield their characters as one character strings, and every other
value is not iterable and throws.  In the collection loop of src/unnamed/
part_001 lines 75 to 87 such a throw escapes to the outer catch and aborts
the whole odds phase. -/
def forOfList (j : Json) : Except Unit (List Json) :=
  match j with
  | Json.arr xs => Except.ok xs
  | Json.str s => Except.ok (s.data.map (fun c => Json.str (Char.toString c)))
  | _ => Except.error ()

/-- The competitions contributed by one grouping element in the collection
loop (src/unnamed/part_001 lines 77 to 81): reading competitions of a null
element throws; otherwise the value, defaulted to an empty array when
falsy, is iterated. -/
def compsOfE (g : Json) : Except Unit (List Json) :=
  match g with
  | Json.null => Except.error ()
  | _ => forOfList (jsOr (jv (jget? g "competitions")) (Json.arr []))

/-- Sequenced collection over the grouping elements, aborting at the first
throwing element as the source loop does. -/
def collectGroupComps : List Json → Except Unit (List Json)
  | [] => Except.ok []
  | g :: gs =>
    match compsOfE g with
    | Except.error e => Except.error e
    | Except.ok cs =>
      match collectGroupComps gs with
      | Except.error e => Except.error e
      | Except.ok rest => Except.ok (cs ++ rest)

/-- Embeds the competition collection of src/unnamed/part_001 lines 75 to 87
for one event: the competitions of each grouping, then the top level
competitions.  Reading groupings of a null event throws, and a truthy non
iterable groupings or competitions value throws in for...of; every throw is
an error outcome that aborts the whole phase, since the loop runs inside
the one outer try of fetchLeaguesAndScores. -/
def eventAllCompsE (event : Json) : Except Unit (List Json) :=
  match event with
  | Json.null => Except.error ()
  | _ =>
    match forOfList (jsOr (jv (jget? event "groupings")) (Json.arr [])) with
    | Except.error e => Except.error e
    | Except.ok gs =>
      match collectGroupComps gs with
      | Except.error e => Except.error e
      | Except.ok gcs =>
        match forOfList (jsOr (jv (jget? event "competitions")) (Json.arr [])) with
        | Except.error e => Except.error e
        | Except.ok ecs => Except.ok (gcs ++ ecs)

/-- Sequenced collection over the events of one league, aborting at the
first throwing event. -/
def collectEventComps : List Json → Except Unit (List Json)
  | [] => Except.ok []
  | ev :: evs =>
    match eventAllCompsE ev with
    | Except.error e => Except.error e
    | Except.ok cs =>
      match collectEventComps evs with
      | Except.error e => Except.error e
      | Except.ok rest => Except.ok (cs ++ rest)

/-- The key under which a competition lands in the odds object: property
keys stringify in Object.fromEntries. -/
def compIdStr (c : Json) : String := jsToString (jv (jget? c "id"))

/-- The odds entries contributed by one league, embedding lines 72 to 129 of
src/unnamed/part_001: the collected competitions of the events read back
for the league id, each resolved through oddsEntryFor and keyed by the
competition id, unresolved ones dropped by filter Boolean; a throw during
collection is the error outcome.  Resolution itself never throws past the
per competition catch, so interleaving it per league keeps both the entry
sequence and the error outcome of the source, which collects every
competition first and resolves afterwards. -/
def perLeaguePairsE (env : String → Except Unit Json)
    (ods : String → String → Except Unit Json) (L : List League) (l : League) :
    Except Unit (List (String × Json)) :=
  match collectEventComps (scoresGet env L l.id) with
  | Except.error e => Except.error e
  | Except.ok cs => Except.ok (cs.filterMap (fun c =>
      (oddsEntryFor (ods l.slug (compIdStr c)) c).map (fun d => (compIdStr c, d))))

/-- Concatenation of the per league entry blocks in league order, aborting
when any league block throws: the sequence Object.fromEntries folds over
when the phase completes, and the abort of the whole phase otherwise. -/
def collectBlocks (P : League → Except Unit (List (String × Json))) :
    List League → Except Unit (List (String × Json))
  | [] => Except.ok []
  | l :: ls =>
    match P l with
    | Except.error e => Except.error e
    | Except.ok b =>
      match collectBlocks P ls with
      | Except.error e => Except.error e
      | Except.ok rest => Except.ok (b ++ rest)

/-- All odds entries of the cycle, or the abort of the odds phase. -/
def oddsEntriesE (env : String → Except Unit Json)
    (ods : String → String → Except Unit Json) (L : List League) :
    Except Unit (List (String × Json)) :=
  collectBlocks (perLeaguePairsE env ods L) L

/-- Lookup of one key in an entry block outcome: an aborted phase stays an
abort, a completed one answers the fromEntries lookup. -/
def blocksLookup (r : Except Unit (List (String × Json))) (cid : String) :
    Except Unit (Option Json) :=
  match r with
  | Except.error e => Except.error e
  | Except.ok es => Except.ok (entriesGet es cid)

/-- The resolved odds of one competition id at the end of the cycle, or the
abort of the odds phase (the source then renders its error state and the
odds object is never written). -/
def oddsLookupE (env : String → Except Unit Json)
    (ods : String → String → Except Unit Json) (L : List League) (cid : String) :
    Except Unit (Option Json) :=
  blocksLookup (oddsEntriesE env ods L) cid

/-- Number of fields of an object value, used to separate concrete object
values without a decidable equality on Json. -/
def jsonFieldCount : Json → Nat
  | Json.obj fs => fs.length
  | _ => 0

/-- Market entry carrying a concrete American moneyline, for evaluation. -/
def oddsDemoItem : Json :=
  Json.obj [("homeTeamOdds", Json.obj [("current", Json.obj [("moneyLine",
    Json.obj [("american", Json.num (-110))])])]),
    ("awayTeamOdds", Json.obj [("current", Json.obj [("moneyLine",
    Json.obj [("american", Json.num 120)])])])]

/-- Market list of the demo odds response. -/
def oddsDemoItems : List Json := [Json.obj [], Json.obj [], oddsDemoItem]

/-- Demo odds endpoint response with three market entries. -/
def oddsDemoData : Json := Json.obj [("items", Json.arr oddsDemoItems)]

/-- Short demo odds endpoint response with one market entry. -/
def oddsDemoShort : Json := Json.obj [("items", Json.arr [oddsDemoItem])]

/-- Competition payload carrying an embedded opening moneyline, for
evaluation of the fallback branch. -/
def fallbackDemoComp : Json :=
  Json.obj [("id", Json.str "C9"),
    ("odds", Json.arr [Json.obj [("moneyline", Json.obj [
      ("home", Json.obj [("open", Json.obj [("odds", Json.num 150)])]),
      ("away", Json.obj [("open", Json.obj [("odds", Json.num (-170))])])
    ])]])]

/-- Top level competition of the flattening counterexample. -/
def flattenDemoComp : Json := Json.obj [("id", Json.str "C1")]

/-- Grouping without a competitions list, for the flattening counterexample. -/
def flattenDemoGrouping : Json :=
  Json.obj [("grouping", Json.obj [("displayName", Json.str "Court 1")])]

/-- Event carrying both a groupings list and a top level competitions list,
with the grouping itself empty of competitions. -/
def flattenDemoEvent : Json :=
  Json.obj [("id", Json.str "E1"), ("name", Json.str "Demo Open"),
    ("groupings", Json.arr [flattenDemoGrouping]),
    ("competitions", Json.arr [flattenDemoComp])]

/-- Demo reference list of the league handler: one entry that resolves and
one that fails. -/
def leaguesDemoRefs : List Json :=
  [Json.obj [("kind", Json.str "good"),
    ("id", Json.str "10"), ("name", Json.str "ATP"), ("abbreviation", Json.str "atp"),
    ("slug", Json.str "atp")], Json.obj [("kind", Json.str "bad")]]

/-- Demo directory payload of two references for the league handler. -/
def leaguesDemoDir : Json := Json.obj [("items", Json.arr leaguesDemoRefs)]

/-- Demo per reference resolution: the reference marked good resolves to
itself, the other fails. -/
def leaguesDemoResolve (item : Json) : Except Unit Json :=
  match jget? item "kind" with
  | some (Json.str s) => if s = "good" then Except.ok item else Except.error ()
  | _ => Except.error ()

/-- Event of the grouping builder demonstration. -/
def builderDemoEvent : Json :=
  Json.obj [("name", Json.str "Open A"),
    ("groupings", Json.arr [Json.obj [("grouping",
      Json.obj [("displayName", Json.str "Court 1")]),
      ("competitions", Json.arr [flattenDemoComp])]])]

/-- The grouping node the builder produces for the demo event. -/
def builderDemoEntry : GroupingEntry :=
  ⟨"Open A||Court 1", Json.str "Court 1", [(builderDemoEvent, flattenDemoComp)]⟩

/-- The tournament node the builder produces for the demo event. -/
def builderDemoTournament : TournamentEntry :=
  ⟨Json.str "Open A", [builderDemoEntry]⟩

/-- Invariant of one inner grouping map under its tournament name: keys are
pairwise distinct (merging by key), every stored node repeats its map key,
and every key is the tournament name and the display name of the node
joined by the double bar delimiter. -/
def GroupMapInv (tn : Json) (gm : GroupMap) : Prop :=
  (gm.map Prod.fst).Nodup ∧
  ∀ p ∈ gm, p.2.key = p.1 ∧
    p.1 = jsToString tn ++ "||" ++ jsToString p.2.displayName

/-- Invariant of the outer tournament map: every inner map satisfies the
grouping map invariant for its own tournament name. -/
def TourMapInv (tm : TourMap) : Prop :=
  ∀ q ∈ tm, GroupMapInv q.1 q.2

/-- The leagues of the isolation demonstration. -/
def isoLeagueA : League := ⟨"1", "atp"⟩

/-- Second league of the isolation demonstration, the one whose fetch
fails in the degraded run. -/
def isoLeagueB : League := ⟨"2", "wta"⟩

/-- Demo event of league A carrying one grouping competition. -/
def isoEventA : Json :=
  Json.obj [("id", Json.str "EA"),
    ("groupings", Json.arr [Json.obj [("competitions",
      Json.arr [fallbackDemoComp])]])]

/-- Demo event of league B in the healthy run. -/
def isoEventB : Json :=
  Json.obj [("id", Json.str "EB"),
    ("competitions", Json.arr [Json.obj [("id", Json.str "CB")]])]

/-- Healthy run environment of the isolation demonstration. -/
def isoEnvGood (slug : String) : Except Unit Json :=
  if slug = "atp" then Except.ok (Json.obj [("events", Json.arr [isoEventA])])
  else if slug = "wta" then Except.ok (Json.obj [("events", Json.arr [isoEventB])])
  else Except.error ()

/-- Degraded run environment: league B now fails, the rest unchanged. -/
def isoEnvBad (slug : String) : Except Unit Json :=
  if slug = "wta" then Except.error () else isoEnvGood slug

/-- Odds endpoint environment of the isolation demonstration: every call
fails, exercising the embedded moneyline fallback. -/
def isoOdds (_slug _cid : String) : Except Unit Json := Except.error ()

/-- The league list of the isolation demonstrations. -/
def isoLeagues : List League := [isoLeagueA, isoLeagueB]

/-- Healthy run environment whose league B payload is malformed: its events
list holds a null event, on which the collection loop throws. -/
def isoEnvMal (slug : String) : Except Unit Json :=
  if slug = "atp" then Except.ok (Json.obj [("events", Json.arr [isoEventA])])
  else if slug = "wta" then Except.ok (Json.obj [("events", Json.arr [Json.null])])
  else Except.error ()

/-- Degraded run of the malformed demonstration: league B now fails to
fetch, the rest unchanged. -/
def isoEnvMalBad (slug : String) : Except Unit Json :=
  if slug = "wta" then Except.error () else isoEnvMal slug

/-- Demo date parser of the time window demonstration: one known date
string, everything else unparseable. -/
def timeDemoParse (s : String) : Option ℤ :=
  if s = "d" then some 0 else none

/-- Helper shared by the odds handler claims: the status field is the
constant 200 on every branch of the handler. -/
theorem oddsHandler_status_eq (outcome : FetchOutcome) :
    (oddsHandler outcome).status = 200 := by
  cases outcome with
  | netError => rfl
  | got status body =>
    simp only [oddsHandler]
    split
    · rfl
    · cases body with
      | error e => rfl
      | ok data =>
        rcases h : jget? data "items" with _ | v
        · simp only [h]
        · cases v <;> simp only [h] <;> split <;> first | rfl | (split <;> rfl)

/-- C10: the odds proxy handler responds with HTTP status 200 on every
execution path, never a non 200 status; a thrown fetch, an upstream non 2xx
status, a parse error and a market list of fewer than three entries each
answer 200 with body null, and a successful resolution (market list with
the preferred index two in bounds, entry not null) answers 200 with the
home and away pair projected from that entry. -/
theorem oddsHandler_always_status_200 :
    (∀ outcome, (oddsHandler outcome).status = 200) ∧
    oddsHandler FetchOutcome.netError = ⟨200, Json.null⟩ ∧
    (∀ status body, status < 200 ∨ 300 ≤ status →
      oddsHandler (FetchOutcome.got status body) = ⟨200, Json.null⟩) ∧
    (∀ status e, 200 ≤ status → status < 300 →
      oddsHandler (FetchOutcome.got status (Except.error e)) = ⟨200, Json.null⟩) ∧
    (∀ status data items, 200 ≤ status → status < 300 →
      jget? data "items" = some (Json.arr items) → items.length < 3 →
      oddsHandler (FetchOutcome.got status (Except.ok data)) = ⟨200, Json.null⟩) ∧
    (∀ status data items o, 200 ≤ status → status < 300 →
      jget? data "items" = some (Json.arr items) → 3 ≤ items.length →
      items.get? 2 = some o → o ≠ Json.null →
      oddsHandler (FetchOutcome.got status (Except.ok data)) =
        ⟨200, Json.obj [("home", extractAmerican o "homeTeamOdds"),
                        ("away", extractAmerican o "awayTeamOdds")]⟩) := by
  refine ⟨oddsHandler_status_eq, rfl, ?_, ?_, ?_, ?_⟩
  · intro status body hbad
    simp only [oddsHandler, if_pos hbad]
  · intro status e h1 h2
    have hcond : ¬ (status < 200 ∨ 300 ≤ status) := by omega
    simp only [oddsHandler, if_neg hcond]
  · intro status data items h1 h2 hitems hlt
    have hcond : ¬ (status < 200 ∨ 300 ≤ status) := by omega
    simp only [oddsHandler, if_neg hcond, hitems, if_pos hlt]
  · intro status data items o h1 h2 hitems h3 ho honn
    have hcond : ¬ (status < 200 ∨ 300 ≤ status) := by omega
    have hlt : ¬ items.length < 3 := by omega
    rcases o with _ | b | nn | s | xs | fs
    · exact absurd rfl honn
    all_goals simp only [oddsHandler, if_neg hcond, hitems, if_neg hlt, ho]

/-- Witness for the odds handler path theorem at concrete outcomes: a 404
upstream, a throwing parse, a one entry market list, and a three entry list
resolving to the projected pair. -/
theorem oddsHandler_always_status_200_witness :
    oddsHandler (FetchOutcome.got 404 (Except.ok Json.null)) = ⟨200, Json.null⟩ ∧
    oddsHandler (FetchOutcome.got 200 (Except.error ())) = ⟨200, Json.null⟩ ∧
    oddsHandler (FetchOutcome.got 200 (Except.ok oddsDemoShort)) = ⟨200, Json.null⟩ ∧
    oddsHandler (FetchOutcome.got 200 (Except.ok oddsDemoData)) =
      ⟨200, Json.obj [("home", extractAmerican oddsDemoItem "homeTeamOdds"),
                      ("away", extractAmerican oddsDemoItem "awayTeamOdds")]⟩ :=
  ⟨oddsHandler_always_status_200.2.2.1 404 _ (by omega),
   oddsHandler_always_status_200.2.2.2.1 200 () (by omega) (by omega),
   oddsHandler_always_status_200.2.2.2.2.1 200 oddsDemoShort [oddsDemoItem]
     (by omega) (by omega) rfl (by decide),
   oddsHandler_always_status_200.2.2.2.2.2 200 oddsDemoData oddsDemoItems oddsDemoItem
     (by omega) (by omega) rfl (by decide) rfl (fun h => Json.noConfusion h)⟩

/-- C9: scoreboard normalization agrees everywhere with the rule of the
specification — an array payload is the event list, otherwise the events
field when it is an array, and every other shape, null and fetch errors
included, yields the empty list. -/
theorem normalizeScoreboard_matches_spec (r : Except Unit Json) :
    normalizeScoreboard r = specNormalizeScoreboard r := by
  cases r with
  | error e => rfl
  | ok data =>
    cases data with
    | null => rfl
    | bool b => rfl
    | num n => rfl
    | str s => rfl
    | arr xs => rfl
    | obj fs =>
      rcases h : lookupField fs "events" with _ | v
      · simp [normalizeScoreboard, specNormalizeScoreboard, jget?, h]
      · cases v with
        | null => simp [normalizeScoreboard, specNormalizeScoreboard, jget?, h, truthy]
        | bool b =>
          cases b <;> simp [normalizeScoreboard, specNormalizeScoreboard, jget?, h, truthy]
        | num n =>
          rcases eq_or_ne n 0 with hn | hn <;>
            simp [normalizeScoreboard, specNormalizeScoreboard, jget?, h, truthy, hn]
        | str s =>
          rcases eq_or_ne s "" with hs | hs <;>
            simp [normalizeScoreboard, specNormalizeScoreboard, jget?, h, truthy, hs]
        | arr xs =>
          simp only [normalizeScoreboard, specNormalizeScoreboard, jget?, h]
          rfl
        | obj fs2 => simp [normalizeScoreboard, specNormalizeScoreboard, jget?, h, truthy]

/-- C6: an event passes the time window filter exactly when its date parses
and lies in the inclusive interval from four days before now to eight days
after now; the boundary days are included, one day beyond each boundary is
excluded, and a missing or unparseable date is excluded. -/
theorem time_window_inclusive (parseDate : String → Option ℤ) (now : ℤ) :
    (isGameInTimeWindow parseDate now none = false) ∧
    (∀ s, s ≠ "" → parseDate s = none →
      isGameInTimeWindow parseDate now (some s) = false) ∧
    (∀ s d, s ≠ "" → parseDate s = some d →
      (isGameInTimeWindow parseDate now (some s) = true ↔
        now - 4 * msPerDay ≤ d ∧ d ≤ now + 8 * msPerDay)) ∧
    (∀ s, s ≠ "" → parseDate s = some (now - 4 * msPerDay) →
      isGameInTimeWindow parseDate now (some s) = true) ∧
    (∀ s, s ≠ "" → parseDate s = some (now - 5 * msPerDay) →
      isGameInTimeWindow parseDate now (some s) = false) ∧
    (∀ s, s ≠ "" → parseDate s = some (now + 8 * msPerDay) →
      isGameInTimeWindow parseDate now (some s) = true) ∧
    (∀ s, s ≠ "" → parseDate s = some (now + 9 * msPerDay) →
      isGameInTimeWindow parseDate now (some s) = false) := by
  have hbase : ∀ s d, s ≠ "" → parseDate s = some d →
      (isGameInTimeWindow parseDate now (some s) = true ↔
        now - 4 * msPerDay ≤ d ∧ d ≤ now + 8 * msPerDay) := by
    intro s d hs hp
    simp [isGameInTimeWindow, hs, hp]
  refine ⟨rfl, ?_, hbase, ?_, ?_, ?_, ?_⟩
  · intro s hs hp
    simp [isGameInTimeWindow, hs, hp]
  · intro s hs hp
    rw [hbase s _ hs hp]
    unfold msPerDay
    omega
  · intro s hs hp
    rw [← Bool.not_eq_true, hbase s _ hs hp]
    unfold msPerDay
    omega
  · intro s hs hp
    rw [hbase s _ hs hp]
    unfold msPerDay
    omega
  · intro s hs hp
    rw [← Bool.not_eq_true, hbase s _ hs hp]
    unfold msPerDay
    omega

/-- Witness for the time window theorem: the demo date zero lies inside the
window around a concrete now of one day, and the filter accepts it. -/
theorem time_window_inclusive_witness :
    ("d" ≠ "" ∧ timeDemoParse "d" = some 0) ∧
    isGameInTimeWindow timeDemoParse msPerDay (some "d") = true :=
  ⟨⟨by decide, by decide⟩,
    ((time_window_inclusive timeDemoParse msPerDay).2.2.1 "d" 0 (by decide)
      (by decide)).mpr (by unfold msPerDay; omega)⟩

/-- C7 counterexample: the string zero input coerces to the number zero yet
the conversion yields the zero point zero percent value instead of null, so
the sentence that every zero input returns null fails on the code. -/
theorem americanOdds_string_zero :
    jsToNumber (Json.str "0") = some 0 ∧
    americanOddsToPercentage (Json.str "0") = some 0 := by
  constructor <;> decide

/-- Exact description of the integer rounding used by the percentage
conversion: it is the rounding of the true ratio to the nearest integer. -/
theorem roundHalfUpDiv_eq_round (a b : ℤ) (hb : 0 < b) :
    roundHalfUpDiv a b = round ((a : ℚ) / (b : ℚ)) := by
  rw [round_eq]
  have hb2 : (0 : ℤ) ≤ 2 * b := by omega
  have hbq : (b : ℚ) ≠ 0 := by
    exact_mod_cast hb.ne.symm
  have key : (a : ℚ) / (b : ℚ) + 1 / 2 =
      ((2 * a + b : ℤ) : ℚ) / (((2 * b).toNat : ℕ) : ℚ) := by
    have hcast : (((2 * b).toNat : ℕ) : ℚ) = ((2 * b : ℤ) : ℚ) := by
      have := Int.toNat_of_nonneg hb2
      exact_mod_cast congrArg (fun z : ℤ => (z : ℚ)) this
    rw [hcast]
    push_cast
    field_simp
    ring
  rw [key, Rat.floor_intCast_div_natCast]
  unfold roundHalfUpDiv
  rw [Int.toNat_of_nonneg hb2]

/-- C7 as amended: for a truthy input coercing to a positive number n the
conversion yields the implied probability 100/(n+100) as a percentage in
tenths, rounded to the displayed precision; for a negative n it yields
abs n/(abs n+100) likewise; the number zero, null and non numeric inputs
yield null; but a truthy string that coerces to zero escapes the zero guard
and yields the zero percentage instead of null, and no denominator is ever
zero.  The spec examples evaluate to 40.0 and 66.7 percent. -/
theorem americanOdds_percentage_amended :
    (∀ j n, truthy j = true → jsToNumber j = some n → 0 < n →
      americanOddsToPercentage j = some (round ((100000 : ℚ) / ((n : ℚ) + 100)))) ∧
    (∀ j n, truthy j = true → jsToNumber j = some n → n < 0 →
      americanOddsToPercentage j =
        some (round ((1000 * (n.natAbs : ℚ)) / ((n.natAbs : ℚ) + 100)))) ∧
    (∀ j n, truthy j = true → jsToNumber j = some n → n = 0 →
      americanOddsToPercentage j = some 0) ∧
    (∀ j, truthy j = false → americanOddsToPercentage j = none) ∧
    (∀ j, jsToNumber j = none → americanOddsToPercentage j = none) ∧
    americanOddsToPercentage (Json.num 150) = some 400 ∧
    americanOddsToPercentage (Json.num (-200)) = some 667 ∧
    americanOddsToPercentage (Json.num 0) = none ∧
    americanOddsToPercentage Json.null = none := by
  refine ⟨?_, ?_, ?_, ?_, ?_, by decide, by decide, by decide, by decide⟩
  · intro j n hj hn hpos
    have hv : americanOddsToPercentage j = some (roundHalfUpDiv 100000 (n + 100)) := by
      simp [americanOddsToPercentage, hj, hn, hpos]
    rw [hv, roundHalfUpDiv_eq_round _ _ (by omega)]
    congr 1
    push_cast
    ring_nf
  · intro j n hj hn hneg
    have hnp : ¬ 0 < n := by omega
    have hv : americanOddsToPercentage j =
        some (roundHalfUpDiv (1000 * (n.natAbs : ℤ)) ((n.natAbs : ℤ) + 100)) := by
      simp [americanOddsToPercentage, hj, hn, hnp]
    rw [hv, roundHalfUpDiv_eq_round _ _ (by positivity)]
    congr 1
    push_cast
    ring_nf
    rw [Int.cast_natAbs, Int.cast_abs]
  · intro j n hj hn h0
    subst h0
    simp [americanOddsToPercentage, hj, hn]
    decide
  · intro j hj
    simp [americanOddsToPercentage, hj]
  · intro j hn
    simp [americanOddsToPercentage, hn]

/-- Witness for the amended percentage theorem: the positive branch at the
spec example of one hundred fifty. -/
theorem americanOdds_percentage_amended_witness :
    (truthy (Json.num 150) = true ∧ jsToNumber (Json.num 150) = some 150) ∧
    americanOddsToPercentage (Json.num 150) =
      some (round ((100000 : ℚ) / ((150 : ℤ) + 100 : ℚ))) := by
  refine ⟨⟨by decide, by decide⟩, ?_⟩
  have := americanOdds_percentage_amended.1 (Json.num 150) 150 (by decide) (by decide)
    (by decide)
  simpa using this

/-- C1: for every valid response of the dedicated odds endpoint carrying at
least one market entry, resolution is total (the handler always answers,
with status 200) and yields the home and away pair with each field a finite
number or null whenever the preferred market index two is in bounds; an out
of bounds preferred index does not crash the handler but is treated as no
odds from this source — the body is null and the caller falls through. -/
theorem oddsHandler_valid_response (status : ℤ) (data : Json) (items : List Json)
    (h200 : 200 ≤ status) (h300 : status < 300)
    (hitems : jget? data "items" = some (Json.arr items))
    (hvalid : validOddsItems items = true)
    (hne : 0 < items.length) :
    (oddsHandler (FetchOutcome.got status (Except.ok data))).status = 200 ∧
    (3 ≤ items.length →
      ∃ h a, (oddsHandler (FetchOutcome.got status (Except.ok data))).body =
          Json.obj [("home", h), ("away", a)] ∧
        numOrNull h = true ∧ numOrNull a = true) ∧
    (items.length < 3 →
      (oddsHandler (FetchOutcome.got status (Except.ok data))).body = Json.null) := by
  have hcond : ¬ (status < 200 ∨ 300 ≤ status) := by omega
  refine ⟨oddsHandler_status_eq _, ?_, ?_⟩
  · intro h3
    have hlt : ¬ items.length < 3 := by omega
    obtain ⟨o, ho⟩ : ∃ o, items.get? 2 = some o := by
      rw [List.get?_eq_get (by omega)]
      exact ⟨_, rfl⟩
    have hmem : o ∈ items := List.get?_mem ho
    have hitem : validOddsItem o = true := List.all_eq_true.mp hvalid o hmem
    have hsplit := hitem
    simp only [validOddsItem, Bool.and_eq_true] at hsplit
    refine ⟨extractAmerican o "homeTeamOdds", extractAmerican o "awayTeamOdds",
      ?_, hsplit.1.2, hsplit.2⟩
    rcases o with _ | b | nn | s | xs | fs
    · simp [validOddsItem] at hitem
    all_goals
      simp only [oddsHandler, hitems, ho, if_neg hcond, if_neg hlt]
  · intro hlt
    simp only [oddsHandler, hitems, if_neg hcond, if_pos hlt]

/-- Witness for the odds endpoint theorem at a concrete three entry market
list whose third entry carries numeric American odds. -/
theorem oddsHandler_valid_response_witness :
    (jget? oddsDemoData "items" = some (Json.arr oddsDemoItems) ∧
     validOddsItems oddsDemoItems = true ∧ 3 ≤ oddsDemoItems.length) ∧
    (∃ h a, (oddsHandler (FetchOutcome.got 200 (Except.ok oddsDemoData))).body =
        Json.obj [("home", h), ("away", a)] ∧
      numOrNull h = true ∧ numOrNull a = true) :=
  ⟨⟨rfl, by decide, by decide⟩,
   (oddsHandler_valid_response 200 oddsDemoData oddsDemoItems (by decide) (by decide)
     rfl (by decide) (by decide)).2.1 (by decide)⟩

/-- C8 counterexample: when the directory itself is unreachable the handler
answers with HTTP status 500, an error status its caller treats as a failed
load, refuting the sentence that the resolver never produces an error and
that an unreachable directory is a non exceptional result. -/
theorem leaguesHandler_error_status :
    (leaguesHandler (Except.error ()) (fun _ => Except.error ())).status = 500 ∧
    ¬ (leaguesHandler (Except.error ()) (fun _ => Except.error ())).status = 200 := by
  constructor <;> decide

/-- C8 as amended: the handler takes the fixed 25 entry front of the
directory list, resolves every entry, silently drops each entry whose
resolution fails (incomplete results are valid output, at most 25
descriptors, served with status 200); but when the directory itself is
unreachable it answers an empty list under HTTP status 500, an error
status, rather than a non exceptional empty result. -/
theorem leaguesHandler_amended (resolve : Json → Except Unit Json) :
    (∀ e, leaguesHandler (Except.error e) resolve = ⟨500, Json.arr []⟩) ∧
    (∀ listData xs, jget? listData "items" = some (Json.arr xs) →
      (leaguesHandler (Except.ok listData) resolve).status = 200 ∧
      (leaguesHandler (Except.ok listData) resolve).body =
        Json.arr ((xs.take 25).filterMap (fun it =>
          ((resolve it).toOption).map mkLeagueDescriptor)) ∧
      ∀ ds, (leaguesHandler (Except.ok listData) resolve).body = Json.arr ds →
        ds.length ≤ 25) := by
  have hfun : ∀ it : Json,
      (match resolve it with
        | Except.ok l => some (mkLeagueDescriptor l)
        | Except.error _ => none) =
      ((resolve it).toOption).map mkLeagueDescriptor := by
    intro it
    cases resolve it <;> rfl
  constructor
  · intro e
    rfl
  · intro listData xs hitems
    have hbody : (leaguesHandler (Except.ok listData) resolve).body =
        Json.arr ((xs.take 25).filterMap (fun it =>
          ((resolve it).toOption).map mkLeagueDescriptor)) := by
      simp only [leaguesHandler, hitems]
      congr 1
      exact List.filterMap_congr (fun it _ => hfun it)
    refine ⟨by simp only [leaguesHandler, hitems], hbody, ?_⟩
    intro ds hds
    rw [hbody] at hds
    cases hds
    calc ((xs.take 25).filterMap _).length ≤ (xs.take 25).length :=
          List.length_filterMap_le _ _
      _ ≤ 25 := by
          rw [List.length_take]
          exact min_le_left _ _

/-- Witness for the amended league handler theorem at the two entry demo
directory: the failing reference is dropped and only the resolving one is
served, with status 200. -/
theorem leaguesHandler_amended_witness :
    jget? leaguesDemoDir "items" = some (Json.arr leaguesDemoRefs) ∧
    (leaguesHandler (Except.ok leaguesDemoDir) leaguesDemoResolve).status = 200 ∧
    (leaguesHandler (Except.ok leaguesDemoDir) leaguesDemoResolve).body =
      Json.arr ((leaguesDemoRefs.take 25).filterMap (fun it =>
        ((leaguesDemoResolve it).toOption).map mkLeagueDescriptor)) :=
  ⟨rfl,
   ((leaguesHandler_amended leaguesDemoResolve).2 leaguesDemoDir leaguesDemoRefs rfl).1,
   ((leaguesHandler_amended leaguesDemoResolve).2 leaguesDemoDir leaguesDemoRefs rfl).2.1⟩

/-- Helper: the strict null test fails exactly on an explicit null value. -/
theorem strictNeNull_eq_false_iff (o : Option Json) :
    strictNeNull o = false ↔ o = some Json.null := by
  rcases o with _ | v
  · simp [strictNeNull]
  · cases v <;> simp [strictNeNull]

/-- C2: per competition odds resolution follows the strict fallback order of
the source: the dedicated endpoint answer is used exactly when it is usable;
when the call fails or the answer carries no side (for a well formed
endpoint body: null, or a pair with both sides null) the embedded moneyline
of the competition payload is consulted, taking each side its opening
price; and when that moneyline is absent as well the competition resolves
to null, a plain unresolved state rather than an error. -/
theorem odds_fallback_chain (e : Except Unit Json) (c : Json) :
    (∀ data, e = Except.ok data → endpointUsable e = true →
      oddsEntryFor e c = some data) ∧
    (endpointUsable e = false → oddsEntryFor e c = fallbackMoneyline c) ∧
    (endpointUsable e = false → fallbackMoneyline c = none → oddsEntryFor e c = none) ∧
    (truthy (mlOf c) = true → fallbackMoneyline c =
      some (Json.obj [("home", openOdds (mlOf c) "home"),
                      ("away", openOdds (mlOf c) "away")])) ∧
    (truthy (mlOf c) = false → fallbackMoneyline c = none) ∧
    (∀ data, e = Except.ok data → wellFormedEndpointBody data →
      (endpointUsable e = false ↔
        (data = Json.null ∨ data = Json.obj [("home", Json.null), ("away", Json.null)]))) := by
  refine ⟨?_, ?_, ?_, ?_, ?_, ?_⟩
  · intro data he hu
    subst he
    simp only [endpointUsable] at hu
    simp only [oddsEntryFor, hu, if_pos]
  · intro hu
    cases e with
    | error u => rfl
    | ok data =>
      simp only [endpointUsable] at hu
      simp only [oddsEntryFor, hu, Bool.false_eq_true, if_false]
  · intro hu hfb
    cases e with
    | error u => simp [oddsEntryFor, hfb]
    | ok data =>
      simp only [endpointUsable] at hu
      simp only [oddsEntryFor, hu, Bool.false_eq_true, if_false, hfb]
  · intro ht
    simp only [fallbackMoneyline, ht, if_pos]
  · intro hf
    simp only [fallbackMoneyline, hf, Bool.false_eq_true, if_false]
  · intro data he hwf
    subst he
    rcases hwf with rfl | ⟨h, a, rfl⟩
    · simp [endpointUsable, truthy]
    · have hh : jget? (Json.obj [("home", h), ("away", a)]) "home" = some h := by
        simp [jget?, lookupField]
      have ha : jget? (Json.obj [("home", h), ("away", a)]) "away" = some a := by
        simp [jget?, lookupField]
      simp only [endpointUsable, truthy, hh, ha, Bool.true_and,
        Bool.or_eq_false_iff, strictNeNull_eq_false_iff, Option.some.injEq]
      constructor
      · rintro ⟨rfl, rfl⟩
        right
        rfl
      · rintro (hcontra | hpair)
        · cases hcontra
        · injection hpair with hfields
          injection hfields with h1 h2
          injection h2 with h3 _
          injection h1 with _ hv1
          injection h3 with _ hv2
          exact ⟨hv1, hv2⟩

/-- Witness for the fallback chain theorem: a usable endpoint answer is
taken as is, and on a failing endpoint call the demo competition resolves
through its embedded opening moneyline. -/
theorem odds_fallback_chain_witness :
    (endpointUsable (Except.ok (Json.obj [("home", Json.num 120),
        ("away", Json.null)])) = true ∧
      oddsEntryFor (Except.ok (Json.obj [("home", Json.num 120), ("away", Json.null)]))
        Json.null =
        some (Json.obj [("home", Json.num 120), ("away", Json.null)])) ∧
    (truthy (mlOf fallbackDemoComp) = true ∧
      fallbackMoneyline fallbackDemoComp =
        some (Json.obj [("home", openOdds (mlOf fallbackDemoComp) "home"),
                        ("away", openOdds (mlOf fallbackDemoComp) "away")])) :=
  ⟨⟨by decide,
    (odds_fallback_chain (Except.ok (Json.obj [("home", Json.num 120),
        ("away", Json.null)])) Json.null).1 _ rfl (by decide)⟩,
   ⟨by decide,
    (odds_fallback_chain (Except.error ()) fallbackDemoComp).2.2.2.1 (by decide)⟩⟩

/-- C3 counterexample: an event carrying a non empty groupings list and a
top level competitions list, whose grouping has no competitions of its own.
The claim requires exactly one synthesized record and forbids consuming the
top level competitions list, but the builder flattens exactly the top level
competition, which is a member of that list and differs from the
synthesized record. -/
theorem flatten_consumes_event_competitions :
    ((tournaments [flattenDemoEvent]).map (fun t =>
        t.groupings.map (fun g => g.items.map Prod.snd))) = [[[flattenDemoComp]]] ∧
    flattenDemoComp ∈ eventCompsOf flattenDemoEvent ∧
    (groupingsArrayOf flattenDemoEvent).length = 1 ∧
    flattenDemoComp ≠ synthComp flattenDemoEvent flattenDemoGrouping := by
  refine ⟨rfl, List.mem_singleton.mpr rfl, by decide, ?_⟩
  intro hcontra
  exact absurd (congrArg jsonFieldCount hcontra) (by decide)

/-- C3 as amended: for an event whose groupings list is non empty the
builder flattens through the groupings alone; within each grouping the
precedence is: the grouping competitions when non empty, else the top level
competitions of the event when non empty, and only when both are empty is
exactly one record synthesized from the event level competitors and odds. -/
theorem flatten_precedence_amended (event g : Json) :
    ((compsOfGrouping g).isEmpty = false →
      itemsForGrouping event g = (compsOfGrouping g).map (fun c => (event, c))) ∧
    ((compsOfGrouping g).isEmpty = true → (eventCompsOf event).isEmpty = false →
      itemsForGrouping event g = (eventCompsOf event).map (fun c => (event, c))) ∧
    ((compsOfGrouping g).isEmpty = true → (eventCompsOf event).isEmpty = true →
      itemsForGrouping event g = [(event, synthComp event g)]) ∧
    (∀ tm, (groupingsArrayOf event).isEmpty = false →
      processEvent tm event = upsertTour tm (tournamentNameOf event)
        (fun gm => (groupingsArrayOf event).foldl
          (processGrouping (tournamentNameOf event) event) gm)) := by
  refine ⟨?_, ?_, ?_, ?_⟩
  · intro hg
    simp only [itemsForGrouping, hg, Bool.false_eq_true, if_false]
  · intro hg he
    simp only [itemsForGrouping, hg, if_true, he, Bool.false_eq_true, if_false]
  · intro hg he
    simp only [itemsForGrouping, hg, if_true, he]
  · intro tm hgs
    simp only [processEvent, hgs, Bool.false_eq_true, if_false]

/-- Witness for the amended flattening theorem at the demo event: the
grouping has no competitions, the event has one top level competition, and
the flattened items are exactly the top level competitions. -/
theorem flatten_precedence_amended_witness :
    ((compsOfGrouping flattenDemoGrouping).isEmpty = true ∧
     (eventCompsOf flattenDemoEvent).isEmpty = false) ∧
    itemsForGrouping flattenDemoEvent flattenDemoGrouping =
      (eventCompsOf flattenDemoEvent).map (fun c => (flattenDemoEvent, c)) :=
  ⟨⟨by decide, by decide⟩,
   (flatten_precedence_amended flattenDemoEvent flattenDemoGrouping).2.1
     (by decide) (by decide)⟩

/-- Helper: successful Map key comparison implies equality of the values. -/
theorem jsKeyEq_eq {a b : Json} (h : jsKeyEq a b = true) : a = b := by
  cases a <;> cases b <;> simp_all [jsKeyEq]

/-- Helper: the key sequence after an upsert — unchanged for a known key,
extended at the end by an unknown one. -/
theorem upsertGrouping_keys (gm : GroupMap) (key : String) (dn : Json)
    (its : List (Json × Json)) :
    (upsertGrouping gm key dn its).map Prod.fst =
      if key ∈ gm.map Prod.fst then gm.map Prod.fst
      else gm.map Prod.fst ++ [key] := by
  induction gm with
  | nil => simp [upsertGrouping]
  | cons p rest ih =>
    obtain ⟨k, e⟩ := p
    by_cases hk : k = key
    · subst hk
      simp [upsertGrouping]
    · have hk2 : ¬ key = k := fun h => hk h.symm
      simp only [upsertGrouping, if_neg hk, List.map_cons, ih, List.mem_cons]
      by_cases hmem : key ∈ rest.map Prod.fst
      · simp [hmem, hk2]
      · simp [hmem, hk2]

/-- Helper: every node of an upserted map satisfies the pointwise part of
the invariant when the inserted key is well formed. -/
theorem upsertGrouping_entries (tn : Json) (gm : GroupMap) (key : String) (dn : Json)
    (its : List (Json × Json))
    (hall : ∀ p ∈ gm, p.2.key = p.1 ∧
      p.1 = jsToString tn ++ "||" ++ jsToString p.2.displayName)
    (hkey : key = jsToString tn ++ "||" ++ jsToString dn) :
    ∀ p ∈ upsertGrouping gm key dn its, p.2.key = p.1 ∧
      p.1 = jsToString tn ++ "||" ++ jsToString p.2.displayName := by
  induction gm with
  | nil =>
    intro p hp
    rcases List.mem_singleton.mp hp with rfl
    exact ⟨rfl, hkey⟩
  | cons q rest ih =>
    obtain ⟨k, e⟩ := q
    intro p hp
    by_cases hk : k = key
    · subst hk
      simp only [upsertGrouping, if_pos rfl] at hp
      rcases List.mem_cons.mp hp with rfl | hmem
      · exact hall (k, e) (List.mem_cons_self _ _)
      · exact hall p (List.mem_cons_of_mem _ hmem)
    · simp only [upsertGrouping, if_neg hk] at hp
      rcases List.mem_cons.mp hp with rfl | hmem
      · exact hall (k, e) (List.mem_cons_self _ _)
      · exact ih (fun r hr => hall r (List.mem_cons_of_mem _ hr)) p hmem

/-- Helper: the grouping map invariant is preserved by one upsert with a
well formed key. -/
theorem upsertGrouping_inv (tn : Json) (gm : GroupMap) (key : String) (dn : Json)
    (its : List (Json × Json))
    (hinv : GroupMapInv tn gm)
    (hkey : key = jsToString tn ++ "||" ++ jsToString dn) :
    GroupMapInv tn (upsertGrouping gm key dn its) := by
  obtain ⟨hnd, hall⟩ := hinv
  constructor
  · rw [upsertGrouping_keys]
    by_cases hmem : key ∈ gm.map Prod.fst
    · rwa [if_pos hmem]
    · rw [if_neg hmem, List.nodup_append]
      refine ⟨hnd, List.nodup_singleton _, ?_⟩
      intro x hx hx2
      rw [List.mem_singleton.mp hx2] at hx
      exact hmem hx
  · exact upsertGrouping_entries tn gm key dn its hall hkey

/-- Helper: processing one grouping preserves the grouping map invariant. -/
theorem processGrouping_inv (tn event : Json) (gm : GroupMap) (g : Json)
    (hinv : GroupMapInv tn gm) :
    GroupMapInv tn (processGrouping tn event gm g) :=
  upsertGrouping_inv tn gm _ _ _ hinv rfl

/-- Helper: folding the grouping processing over any grouping list
preserves the grouping map invariant. -/
theorem foldl_processGrouping_inv (tn event : Json) (gs : List Json) (gm : GroupMap)
    (hinv : GroupMapInv tn gm) :
    GroupMapInv tn (gs.foldl (processGrouping tn event) gm) := by
  induction gs generalizing gm with
  | nil => exact hinv
  | cons g rest ih => exact ih _ (processGrouping_inv tn event gm g hinv)

/-- Helper: processing an event without groupings preserves the grouping
map invariant. -/
theorem processNoGrouping_inv (tn event : Json) (gm : GroupMap)
    (hinv : GroupMapInv tn gm) :
    GroupMapInv tn (processNoGrouping tn event gm) :=
  upsertGrouping_inv tn gm _ _ _ hinv rfl

/-- Helper: the empty grouping map satisfies the invariant. -/
theorem groupMapInv_nil (tn : Json) : GroupMapInv tn [] := by
  constructor
  · exact List.nodup_nil
  · intro p hp
    cases hp

/-- Helper: the outer upsert preserves the tournament map invariant when
the update preserves the grouping map invariant of the inserted name. -/
theorem upsertTour_inv (tm : TourMap) (tn : Json) (f : GroupMap → GroupMap)
    (hinv : TourMapInv tm)
    (hf : ∀ gm, GroupMapInv tn gm → GroupMapInv tn (f gm)) :
    TourMapInv (upsertTour tm tn f) := by
  induction tm with
  | nil =>
    intro q hq
    rcases List.mem_singleton.mp hq with rfl
    exact hf [] (groupMapInv_nil tn)
  | cons r rest ih =>
    obtain ⟨n, gm⟩ := r
    by_cases hk : jsKeyEq n tn = true
    · have hn : n = tn := jsKeyEq_eq hk
      subst hn
      intro q hq
      simp only [upsertTour, hk, if_true] at hq
      rcases List.mem_cons.mp hq with rfl | hmem
      · exact hf gm (hinv (n, gm) (List.mem_cons_self _ _))
      · exact hinv q (List.mem_cons_of_mem _ hmem)
    · intro q hq
      simp only [upsertTour, hk, Bool.false_eq_true, if_false] at hq
      rcases List.mem_cons.mp hq with rfl | hmem
      · exact hinv (n, gm) (List.mem_cons_self _ _)
      · exact ih (fun r hr => hinv r (List.mem_cons_of_mem _ hr)) q hmem

/-- Helper: processing one event preserves the tournament map invariant. -/
theorem processEvent_inv (tm : TourMap) (event : Json) (hinv : TourMapInv tm) :
    TourMapInv (processEvent tm event) := by
  unfold processEvent
  apply upsertTour_inv tm _ _ hinv
  intro gm hgm
  by_cases hgs : (groupingsArrayOf event).isEmpty
  · simpa [hgs] using processNoGrouping_inv _ event gm hgm
  · simpa [hgs] using foldl_processGrouping_inv _ event (groupingsArrayOf event) gm hgm

/-- Helper: the fold of the event processing over any event list satisfies
the tournament map invariant. -/
theorem foldl_processEvent_inv (events : List Json) :
    TourMapInv (events.foldl processEvent []) := by
  have base : TourMapInv [] := by
    intro q hq
    cases hq
  have step : ∀ tm, TourMapInv tm →
      TourMapInv (events.foldl processEvent tm) := by
    induction events with
    | nil => exact fun tm h => h
    | cons e rest ih => exact fun tm h => ih _ (processEvent_inv tm e h)
  exact step [] base

/-- C4: the grouping builder is a pure function of the normalized event
list — rebuilding from the same input yields the identical structure, hence
identical key sequences and item order; every produced grouping key is the
stringified tournament name and grouping display name joined by the double
bar delimiter; and within one tournament the grouping keys are pairwise
distinct, so two competitions sharing a grouping key are merged into the
one node of that key. -/
theorem tournaments_builder_sound (events : List Json) :
    tournaments events = tournaments events ∧
    ∀ t ∈ tournaments events,
      (t.groupings.map GroupingEntry.key).Nodup ∧
      ∀ g ∈ t.groupings,
        g.key = jsToString t.tournamentName ++ "||" ++ jsToString g.displayName := by
  refine ⟨rfl, ?_⟩
  intro t ht
  have hinv := foldl_processEvent_inv events
  obtain ⟨q, hq, hteq⟩ := List.mem_map.mp ht
  obtain ⟨hnd, hall⟩ := hinv q hq
  subst hteq
  constructor
  · have hkeys : (q.2.map Prod.snd).map GroupingEntry.key = q.2.map Prod.fst := by
      rw [List.map_map]
      exact List.map_congr_left (fun p hp => (hall p hp).1)
    simpa [hkeys] using hnd
  · intro g hg
    obtain ⟨p, hp, rfl⟩ := List.mem_map.mp hg
    obtain ⟨h1, h2⟩ := hall p hp
    exact h1.trans h2

/-- Witness for the builder theorem at the demo event: the produced
tournament node is the demo node and its single grouping key decomposes as
tournament name, delimiter, display name. -/
theorem tournaments_builder_sound_witness :
    builderDemoTournament ∈ tournaments [builderDemoEvent] ∧
    builderDemoEntry ∈ builderDemoTournament.groupings ∧
    builderDemoEntry.key = jsToString builderDemoTournament.tournamentName ++ "||" ++
      jsToString builderDemoEntry.displayName :=
  ⟨List.mem_singleton.mpr rfl, List.mem_singleton.mpr rfl,
   (tournaments_builder_sound [builderDemoEvent]).2 builderDemoTournament
     (List.mem_singleton.mpr rfl) |>.2 builderDemoEntry (List.mem_singleton.mpr rfl)⟩

/-- Helper: lookup distributes over concatenation, the later block winning. -/
theorem entriesGet_append {α : Type} (xs ys : List (String × α)) (k : String) :
    entriesGet (xs ++ ys) k = (entriesGet ys k).or (entriesGet xs k) := by
  induction xs with
  | nil =>
    show entriesGet ys k = (entriesGet ys k).or (entriesGet [] k)
    cases entriesGet ys k <;> rfl
  | cons p xs ih =>
    simp only [List.cons_append, entriesGet, List.append_eq]
    rw [ih, Option.or_assoc]

/-- Helper: lookup of an absent key is none. -/
theorem entriesGet_not_mem {α : Type} (xs : List (String × α)) (k : String)
    (h : k ∉ xs.map Prod.fst) : entriesGet xs k = none := by
  induction xs with
  | nil => rfl
  | cons p xs ih =>
    simp only [List.map_cons, List.mem_cons] at h
    push_neg at h
    rw [entriesGet, ih h.2, if_neg (fun hq => h.1 hq.symm)]
    rfl

/-- Helper: the keys of the scores entries are the league ids in order. -/
theorem scoresPairs_keys (env : String → Except Unit Json) (L : List League) :
    (scoresPairs env L).map Prod.fst = L.map League.id := by
  simp only [scoresPairs, List.map_map]
  rfl

/-- Helper: under pairwise distinct league ids the scores object binds each
league id to the normalized events of its own fetch. -/
theorem scoresPairs_get (env : String → Except Unit Json) (L : List League)
    (l : League) (hnd : (L.map League.id).Nodup) (hl : l ∈ L) :
    entriesGet (scoresPairs env L) l.id = some (normalizeScoreboard (env l.slug)) := by
  induction L with
  | nil => cases hl
  | cons l0 rest ih =>
    simp only [scoresPairs, List.map_cons, entriesGet]
    rcases List.mem_cons.mp hl with rfl | hmem
    · have hnotin : l.id ∉ rest.map League.id := by
        rw [List.map_cons, List.nodup_cons] at hnd
        exact hnd.1
      rw [← scoresPairs_keys env rest] at hnotin
      have hz : entriesGet (scoresPairs env rest) l.id = none :=
        entriesGet_not_mem _ _ hnotin
      simp only [scoresPairs] at hz
      rw [hz, if_pos rfl]
      rfl
    · have hnd2 : (rest.map League.id).Nodup := by
        rw [List.map_cons, List.nodup_cons] at hnd
        exact hnd.2
      have hv := ih hnd2 hmem
      simp only [scoresPairs] at hv
      rw [hv]
      rfl

/-- Helper: same fact through the defaulted read of the scores object. -/
theorem scoresGet_eq (env : String → Except Unit Json) (L : List League)
    (l : League) (hnd : (L.map League.id).Nodup) (hl : l ∈ L) :
    scoresGet env L l.id = normalizeScoreboard (env l.slug) := by
  rw [scoresGet, scoresPairs_get env L l hnd hl]
  rfl

/-- Helper: two runs of the odds phase agree on the lookup of a key when
every league block is either the identical outcome in both runs, or empty
without error in the first run while completing without the key in the
second. -/
theorem collectBlocks_lookup_eq (PG PF : League → Except Unit (List (String × Json)))
    (cid : String) (M : List League)
    (h : ∀ l ∈ M, PG l = PF l ∨
      (PG l = Except.ok [] ∧
        ∃ ps, PF l = Except.ok ps ∧ cid ∉ ps.map Prod.fst)) :
    blocksLookup (collectBlocks PG M) cid = blocksLookup (collectBlocks PF M) cid := by
  induction M with
  | nil => rfl
  | cons m M ih =>
    have hrest := ih (fun l hl => h l (List.mem_cons_of_mem _ hl))
    rcases h m (List.mem_cons_self _ _) with heq | ⟨hpg, ps, hpf, hnot⟩
    · simp only [collectBlocks, heq]
      cases hb : PF m with
      | error e => rfl
      | ok b =>
        cases h1 : collectBlocks PG M with
        | error e1 =>
          cases h2 : collectBlocks PF M with
          | error e2 => rfl
          | ok r2 =>
            rw [h1, h2] at hrest
            exact absurd hrest (by simp [blocksLookup])
        | ok r1 =>
          cases h2 : collectBlocks PF M with
          | error e2 =>
            rw [h1, h2] at hrest
            exact absurd hrest (by simp [blocksLookup])
          | ok r2 =>
            rw [h1, h2] at hrest
            simp only [blocksLookup, Except.ok.injEq] at hrest
            simp only [blocksLookup, Except.ok.injEq, entriesGet_append, hrest]
    · simp only [collectBlocks, hpg, hpf]
      cases h1 : collectBlocks PG M with
      | error e1 =>
        cases h2 : collectBlocks PF M with
        | error e2 => rfl
        | ok r2 =>
          rw [h1, h2] at hrest
          exact absurd hrest (by simp [blocksLookup])
      | ok r1 =>
        cases h2 : collectBlocks PF M with
        | error e2 =>
          rw [h1, h2] at hrest
          exact absurd hrest (by simp [blocksLookup])
        | ok r2 =>
          rw [h1, h2] at hrest
          simp only [blocksLookup, Except.ok.injEq] at hrest
          simp only [blocksLookup, Except.ok.injEq, entriesGet_append,
            entriesGet_not_mem _ _ hnot, List.nil_append, hrest]
          cases entriesGet r2 cid <;> rfl

/-- C5 counterexample: the two runs differ only in the upstream answer of
league B — healthy but malformed (an events list holding a null event)
against failed — yet the odds phase of the healthy run aborts on the throw
inside the collection loop while the degraded run completes and resolves
the odds of sibling league A, so changing one league upstream answer does
affect a sibling league output, refuting the zero effect sentence.  The
events of league A are unchanged, locating the violation in the odds
phase. -/
theorem league_failure_not_isolated :
    isoEnvMal "atp" = isoEnvMalBad "atp" ∧
    isoEnvMalBad "wta" = Except.error () ∧
    scoresGet isoEnvMalBad isoLeagues "1" = scoresGet isoEnvMal isoLeagues "1" ∧
    oddsLookupE isoEnvMal isoOdds isoLeagues "C9" = Except.error () ∧
    oddsLookupE isoEnvMalBad isoOdds isoLeagues "C9" =
      Except.ok (some (Json.obj [("home", Json.num 150), ("away", Json.num (-170))])) ∧
    oddsLookupE isoEnvMal isoOdds isoLeagues "C9" ≠
      oddsLookupE isoEnvMalBad isoOdds isoLeagues "C9" :=
  ⟨rfl, rfl, rfl, rfl, rfl, fun h => Except.noConfusion h⟩

/-- C5 as amended: if the scoreboard fetch of one league fails, that league
yields the empty event list, not a thrown error, and every sibling league
keeps exactly the events it has in the run without the failure; the
resolved odds of a sibling competition id are also unchanged provided that
in the healthy run the failing league collects without throwing and binds
no entry for that id (the id side is the id uniqueness invariant of the
data model; the no throw side is forced by the counterexample above, since
a malformed payload of the failing league aborts the whole odds phase in
the healthy run only). -/
theorem league_failure_isolation_amended (L : List League)
    (f g : String → Except Unit Json)
    (ods : String → String → Except Unit Json) (A B : League) (cid : String)
    (hnd : (L.map League.id).Nodup)
    (hA : A ∈ L) (hB : B ∈ L)
    (hag : ∀ l ∈ L, l.slug ≠ B.slug → f l.slug = g l.slug)
    (hfail : g B.slug = Except.error ())
    (hAB : A.slug ≠ B.slug)
    (hBok : ∀ l ∈ L, l.slug = B.slug →
      ∃ ps, perLeaguePairsE f ods L l = Except.ok ps ∧ cid ∉ ps.map Prod.fst) :
    scoresGet g L B.id = [] ∧
    scoresGet g L A.id = scoresGet f L A.id ∧
    oddsLookupE g ods L cid = oddsLookupE f ods L cid := by
  refine ⟨?_, ?_, ?_⟩
  · rw [scoresGet_eq g L B hnd hB, hfail]
    rfl
  · rw [scoresGet_eq g L A hnd hA, scoresGet_eq f L A hnd hA, hag A hA hAB]
  · unfold oddsLookupE oddsEntriesE
    apply collectBlocks_lookup_eq
    intro l hl
    by_cases hslug : l.slug = B.slug
    · refine Or.inr ⟨?_, hBok l hl hslug⟩
      unfold perLeaguePairsE
      rw [scoresGet_eq g L l hnd hl, hslug, hfail]
      rfl
    · refine Or.inl ?_
      unfold perLeaguePairsE
      rw [scoresGet_eq g L l hnd hl, scoresGet_eq f L l hnd hl, hag l hl hslug]

/-- Witness for the amended isolation theorem at the two league
demonstration with a well formed healthy payload for league B: B degrades
to the empty event list and both the events and the resolved odds of
league A are identical across the two runs. -/
theorem league_failure_isolation_amended_witness :
    (isoEnvBad "wta" = Except.error () ∧ (isoLeagues.map League.id).Nodup) ∧
    scoresGet isoEnvBad isoLeagues "2" = [] ∧
    scoresGet isoEnvBad isoLeagues "1" = scoresGet isoEnvGood isoLeagues "1" ∧
    oddsLookupE isoEnvBad isoOdds isoLeagues "C9" =
      oddsLookupE isoEnvGood isoOdds isoLeagues "C9" :=
  ⟨⟨rfl, by decide⟩,
   league_failure_isolation_amended isoLeagues isoEnvGood isoEnvBad isoOdds
     isoLeagueA isoLeagueB "C9" (by decide) (by decide) (by decide)
     (by
       intro l hl hne
       rcases List.mem_cons.mp hl with rfl | hl2
       · rfl
       · rcases List.mem_singleton.mp hl2 with rfl
         exact absurd rfl hne)
     rfl (by decide)
     (by
       intro l hl hslug
       rcases List.mem_cons.mp hl with rfl | hl2
       · exact absurd hslug (by decide)
       · rcases List.mem_singleton.mp hl2 with rfl
         exact ⟨[], rfl, by decide⟩)⟩
